import Mathlib

/-!
# Verification of the AstraCode national situational-awareness pipeline

Shallow embedding of the core ingestion/classification/analytics pipeline:

* `src/engine.py`   — text normalization, sector detection, risk scoring,
  geolocation, future-event detection (`RiskEngine`);
* `src/database.py` — the idempotent article store (`NewsDatabase`);
* `src/pipeline.py` — the per-cycle feed ingestion loop (`Pipeline`);
* `src/analytics.py` — read-side analytics (`RiskAnalytics`).

Python floats that carry classifier confidences, risk means and regression
coefficients are modelled as exact rationals (`ℚ`); machine timestamps as
integers (minutes since an arbitrary epoch, so an hour bucket is a floor
division by 60).  External collaborators (the zero-shot classifier, the
timestamp parser of the store's `fetch_latest`, the feed fetcher) enter as
explicit function/value parameters, exactly where the source consumes them.
-/

namespace Astra

/-! ## Engine: text normalization (`RiskEngine.preprocess`) -/

/-- Characters kept by the cleaning step `re.sub(r'[^\w\s.,!?\'"-]', '', text)`
of `RiskEngine.preprocess`: word characters (modelled as ASCII alphanumerics
plus underscore), whitespace, and the punctuation `. , ! ? ' " -`. -/
def allowedChar (c : Char) : Bool :=
  c.isAlphanum || c = '_' || c.isWhitespace ||
  c = '.' || c = ',' || c = '!' || c = '?' || c = '\'' || c = '"' || c = '-'

/-- Text extraction of `BeautifulSoup(text, "html.parser").get_text(separator=' ')`:
characters between `<` and `>` are markup and are dropped, each tag acting as a
separator (`' '`) between the surrounding text nodes.  The flag records whether
the scanner is inside a tag.  Entity decoding performed by the external HTML
parser is not modelled; an `&` is passed through as text (it is removed by the
character filter immediately afterwards, as in the source). -/
def getTextAux : Bool → List Char → List Char
  | _, [] => []
  | true, c :: rest =>
      if c = '>' then ' ' :: getTextAux false rest else getTextAux true rest
  | false, c :: rest =>
      if c = '<' then getTextAux true rest else c :: getTextAux false rest

/-- Visible-text extraction entry point (scanner starts outside any tag). -/
def get_text (l : List Char) : List Char := getTextAux false l

/-- Whitespace collapsing `re.sub(r'\s+', ' ', text)`: every maximal run of whitespace becomes a
single `' '` (the run is consumed pairwise; the last whitespace of a run emits
the space). -/
def squeeze : List Char → List Char
  | [] => []
  | [c] => [if c.isWhitespace then ' ' else c]
  | c :: d :: rest =>
      if c.isWhitespace && d.isWhitespace then squeeze (d :: rest)
      else (if c.isWhitespace then ' ' else c) :: squeeze (d :: rest)

/-- Python `str.strip()`: remove leading and trailing whitespace. -/
def pyStrip (l : List Char) : List Char :=
  ((l.dropWhile Char.isWhitespace).reverse.dropWhile Char.isWhitespace).reverse

/-- Model of `RiskEngine.preprocess`: empty/falsy input short-circuits to `""`;
otherwise extract visible text from markup, drop disallowed characters,
collapse whitespace runs and strip the ends. -/
def preprocess (s : String) : String :=
  if s = "" then ""
  else String.mk (pyStrip (squeeze (List.filter allowedChar (get_text s.data))))

/-- Model of `RiskEngine.preprocess` as called on a possibly missing feed title:
Python's `if not text: return ""` treats `None` exactly like `""`. -/
def preprocess_opt : Option String → String
  | none => ""
  | some s => preprocess s

/-! ## Engine: sector / future-event / risk / location -/

/-- Python `str.lower()` (character-wise lowercasing). -/
def lowerStr (s : String) : String := String.mk (s.data.map Char.toLower)

/-- Does `pat` match at the head of the second list? -/
def headMatch : List Char → List Char → Bool
  | [], _ => true
  | _ :: _, [] => false
  | a :: as, b :: bs => a = b && headMatch as bs

/-- Substring occurrence, Python's `pat in s` for strings (an empty pattern
occurs in every string). -/
def subOccurs (pat : List Char) : List Char → Bool
  | [] => pat.isEmpty
  | c :: rest => headMatch pat (c :: rest) || subOccurs pat rest

/-- Python `pat in s` on `String`s. -/
def occursIn (pat s : String) : Bool := subOccurs pat.data s.data

/-- Model of `RiskEngine.detect_sector`: walk the configured sector rules in their
declared order; inside a rule walk its keywords in order; the first keyword
that occurs verbatim in the lowercased text decides the sector; otherwise the
safe default `"GENERAL"`.  A rule mapping is an association list, mirroring
the insertion-ordered Python dict `sector_logic`. -/
def detect_sector (rules : List (String × List String)) (text : String) : String :=
  match rules with
  | [] => "GENERAL"
  | (sector, keywords) :: rest =>
      if keywords.any (fun w => occursIn w (lowerStr text)) then sector
      else detect_sector rest text

/-- Modelled from the spec: `detect_sector` as the spec's words describe it —
the first sector with a keyword occurring as a *case-insensitive* substring of
the text, i.e. both the keyword and the text are compared lowercased.  Kept
separate from `detect_sector` (which lowercases only the text, as the source
does) so the two can be compared. -/
def detect_sector_ci (rules : List (String × List String)) (text : String) : String :=
  match rules with
  | [] => "GENERAL"
  | (sector, keywords) :: rest =>
      if keywords.any (fun w => occursIn (lowerStr w) (lowerStr text)) then sector
      else detect_sector_ci rest text

/-- The fixed future-tense cue phrases of `RiskEngine.detect_future_event`. -/
def future_keywords : List String :=
  ["scheduled", "tomorrow", "next week", "planned", "to be", "upcoming",
   "postponed", "will be", "expected"]

/-- Model of `RiskEngine.detect_future_event`: 1 if any cue phrase occurs in the
lowercased text, 0 otherwise (the source returns the integers 1/0). -/
def detect_future_event (text : String) : Nat :=
  if future_keywords.any (fun w => occursIn w (lowerStr text)) then 1 else 0

/-- Python `int()` on a float/rational: truncation toward zero. -/
def pyInt (q : ℚ) : ℤ := if 0 ≤ q then ⌊q⌋ else ⌈q⌉

/-- The fixed label set handed to the zero-shot classifier. -/
def risk_labels : List String :=
  ["Critical Unrest", "Natural Disaster", "Economic Crisis",
   "Political Instability", "Supply Chain Disruption",
   "Normal Business Operation", "Positive Growth"]

/-- Model of `RiskEngine.analyze_risk`: the external zero-shot classifier is an
explicit parameter returning the top label and its confidence (the source
reads `result['labels'][0]` / `result['scores'][0]`); the business rules then
map the label to a `(category, score)` pair, `int(...)` being truncation. -/
def analyze_risk (classifier : String → String × ℚ) (text : String) : String × ℤ :=
  let result := classifier text
  let top_label := result.1
  let confidence := result.2
  if top_label ∈ ["Critical Unrest", "Natural Disaster", "Supply Chain Disruption"] then
    ("Critical", pyInt (80 + confidence * 20))
  else if top_label ∈ ["Economic Crisis", "Political Instability"] then
    ("Warning", pyInt (50 + confidence * 29))
  else if top_label = "Positive Growth" then
    ("Opportunity", 0)
  else
    ("Info", 10)

/-- Model of `RiskEngine.get_location`: walk the gazetteer (insertion-ordered dict,
modelled as an association list `name ↦ (lat, lon)`); the first place name
occurring as a (case-sensitive) substring of the text yields its coordinates;
otherwise `(None, None)`. -/
def get_location (locations : List (String × ℚ × ℚ)) (text : String) :
    Option ℚ × Option ℚ :=
  match locations with
  | [] => (none, none)
  | (city, coords) :: rest =>
      if occursIn city text then (some coords.1, some coords.2)
      else get_location rest text

/-! ## Article store (`NewsDatabase`) -/

/-- One row of the `articles` table (`id` is the list position; `published_dt`
is derived at query time, see `published_dt`). -/
structure Article where
  title : String
  link : String
  published : String
  source : String
  category : String
  risk_score : ℤ
  sector : String
  lat : Option ℚ
  lon : Option ℚ
  is_upcoming : Nat
deriving Repr, DecidableEq

/-- Some row of the store carries this link. -/
def linkStored (link : String) (db : List Article) : Prop :=
  ∃ a ∈ db, a.link = link

/-- Model of `NewsDatabase.save_article`: `INSERT OR IGNORE` keyed on the `UNIQUE`
`link` column — a duplicate link is ignored (`rowcount = 0`, returns `False`);
otherwise the row is appended and `rowcount > 0` yields `True`. -/
def save_article (db : List Article) (a : Article) : Bool × List Article :=
  if db.any (fun b => b.link = a.link) then (false, db) else (true, db ++ [a])

/-- Model of `NewsDatabase.save_article` including its `try/except` wrapper: if the
underlying storage raises (`raises = true`, modelling I/O errors, disk full,
lock contention in `c.execute`), the exception is caught, logged, and the
method returns `False` with the store unchanged. -/
def save_article_exc (raises : Bool) (db : List Article) (a : Article) :
    Bool × List Article :=
  if raises then (false, db) else save_article db a

/-! ## Ingestion pipeline (`Pipeline`) -/

/-- One feed entry as delivered by the external feed parser. -/
structure Entry where
  title : String
  link : String
  published : String
deriving Repr, DecidableEq

/-- Outcome of fetching and processing one source inside the `try` of
`Pipeline.process_feed`: `err` models any exception raised while handling the
source (network failure, malformed feed, classification failure);
`entries es` a successfully parsed feed with entry list `es`. -/
inductive FeedOutcome where
  | err : FeedOutcome
  | entries : List Entry → FeedOutcome
deriving DecidableEq

/-- A configured source together with what fetching it yields this cycle. -/
structure Source where
  name : String
  outcome : FeedOutcome
deriving DecidableEq

/-- The engine's reloadable configuration plus the external classifier. -/
structure Engine where
  sector_rules : List (String × List String)
  locations : List (String × ℚ × ℚ)
  classifier : String → String × ℚ

/-- The per-entry body of `Pipeline.process_feed`: clean the title, classify,
detect sector/location/future flag, and assemble the row dict. -/
def process_article (eng : Engine) (source_name : String) (e : Entry) : Article :=
  let clean_title := preprocess e.title
  let cr := analyze_risk eng.classifier clean_title
  let loc := get_location eng.locations clean_title
  { title := clean_title
    link := e.link
    published := e.published
    source := source_name
    category := cr.1
    risk_score := cr.2
    sector := detect_sector eng.sector_rules clean_title
    lat := loc.1
    lon := loc.2
    is_upcoming := detect_future_event clean_title }

/-- Process one entry and keep the (possibly unchanged) store. -/
def save_step (eng : Engine) (name : String) (db : List Article) (e : Entry) :
    List Article :=
  (save_article db (process_article eng name e)).2

/-- Model of `Pipeline.process_feed`: an exception anywhere in the source's handling is
caught (store unchanged); an empty feed is skipped; otherwise only the first
five entries are processed, in order. -/
def process_feed (eng : Engine) (db : List Article) (src : Source) : List Article :=
  match src.outcome with
  | .err => db
  | .entries es =>
      if es.isEmpty then db
      else (es.take 5).foldl (save_step eng src.name) db

/-- One ingestion cycle of `Pipeline.run`: every configured source is
processed in list order. -/
def run_cycle (eng : Engine) (sources : List Source) (db : List Article) :
    List Article :=
  sources.foldl (process_feed eng) db

/-! ## Analytics (`RiskAnalytics`) -/

/-- Model of `RiskAnalytics._get_data`: `None` (and, Python falsiness: `""`) or
`"All"` mean no filtering, otherwise exact match on `sector`. -/
def get_data (sector : Option String) (df : List Article) : List Article :=
  match sector with
  | none => df
  | some s => if s = "" ∨ s = "All" then df else df.filter (fun a => a.sector = s)

/-- Arithmetic mean of a list of rationals (`pandas` `.mean()`). -/
def listMean (l : List ℚ) : ℚ := l.sum / (l.length : ℚ)

/-- The derived `published_dt` column: `fetch_latest` parses the stored
`published` string with `pd.to_datetime(..., errors='coerce')`; the external
parser is the explicit parameter `parse`, `none` standing for `NaT`. -/
def published_dt (parse : String → Option ℤ) (a : Article) : Option ℤ :=
  parse a.published

/-- Model of `RiskAnalytics.get_national_indicators`: on an empty (filtered) frame the
source returns `0, 0, 0`; otherwise stability is `int(100 - avg_risk)` over
the 50 most recent rows, `crit_count` counts `risk_score > 80` over the whole
frame, and volume counts the last 24 hours (1440 minutes) when any timestamp
parsed, else the whole frame.  `now` is the external clock
(`pd.Timestamp.now`). -/
def get_national_indicators (parse : String → Option ℤ) (now : ℤ)
    (sector : Option String) (df : List Article) : ℤ × ℕ × ℕ :=
  let d := get_data sector df
  if d.isEmpty then (0, 0, 0)
  else
    let avg_risk := listMean ((d.take 50).map (fun a => (a.risk_score : ℚ)))
    let stability := pyInt (100 - avg_risk)
    let crit_count := (d.filter (fun a => 80 < a.risk_score)).length
    let volume :=
      if d.any (fun a => (published_dt parse a).isSome) then
        (d.filter (fun a =>
          match published_dt parse a with
          | some t => decide (now - 1440 < t)
          | none => false)).length
      else d.length
    (stability, crit_count, volume)

/-- An hour bucket: timestamps are minutes, `resample('H')` floors to the
hour. -/
def hour_of (t : ℤ) : ℤ := Int.fdiv t 60

/-- The rows that survive `set_index('published_dt')` with a parseable
timestamp, as (hour bucket, risk score) pairs. -/
def timed_scores (parse : String → Option ℤ) (l : List Article) : List (ℤ × ℚ) :=
  l.filterMap (fun a => (parse a.published).map (fun t => (hour_of t, (a.risk_score : ℚ))))

/-- Earliest occupied hour bucket (0 on an empty list, unused there). -/
def min_hour : List (ℤ × ℚ) → ℤ
  | [] => 0
  | p :: rest => rest.foldl (fun m q => min m q.1) p.1

/-- Latest occupied hour bucket (0 on an empty list, unused there). -/
def max_hour : List (ℤ × ℚ) → ℤ
  | [] => 0
  | p :: rest => rest.foldl (fun m q => max m q.1) p.1

/-- Number of hourly buckets the resampled series spans (first to last
occupied hour inclusive). -/
def n_buckets (ts : List (ℤ × ℚ)) : ℕ := (max_hour ts - min_hour ts + 1).toNat

/-- Scores falling in hour bucket `h`. -/
def bucket_vals (ts : List (ℤ × ℚ)) (h : ℤ) : List ℚ :=
  (ts.filter (fun p => p.1 = h)).map (fun p => p.2)

/-- Resampling `trend_df['risk_score'].resample('H').mean().fillna(0)`: one mean per
hour from the first to the last occupied bucket, empty hours filled with 0. -/
def history_means (ts : List (ℤ × ℚ)) : List ℚ :=
  (List.range (n_buckets ts)).map (fun (i : ℕ) =>
    let vs := bucket_vals ts (min_hour ts + (i : ℤ))
    if vs.isEmpty then 0 else listMean vs)

/-- Ordinary least squares over `X = 0, …, n-1` (what
`sklearn.LinearRegression().fit` computes for one feature), returning
`(intercept, slope)`.  The degenerate guards are unreachable for `n ≥ 2`. -/
def lin_fit (y : List ℚ) : ℚ × ℚ :=
  let n : ℚ := (y.length : ℚ)
  let xs : List ℚ := (List.range y.length).map (fun (i : ℕ) => (i : ℚ))
  let sx := xs.sum
  let sy := y.sum
  let sxx := (xs.map (fun x => x * x)).sum
  let sxy := ((xs.zip y).map (fun p => p.1 * p.2)).sum
  let den := n * sxx - sx * sx
  let slope := if den = 0 then 0 else (n * sxy - sx * sy) / den
  let intercept := if n = 0 then 0 else (sy - slope * sx) / n
  (intercept, slope)

/-- The model's prediction at bucket index `y.length + j` (`model.predict` on
`next_X`). -/
def predict (y : List ℚ) (j : ℕ) : ℚ :=
  (lin_fit y).1 + (lin_fit y).2 * (((y.length + j : ℕ) : ℚ))

/-- Model of `RiskAnalytics.get_forecast`: `None` on an empty frame, no parseable
timestamp, or fewer than 3 hourly buckets; otherwise the combined chart —
one row per hour `(hour, Actual Trend, AI Forecast)`: observed hours carry
the historical mean with an empty forecast cell, except the last observed
hour whose forecast cell is seeded with the last observed mean
(`chart_df.loc[last_date, 'AI Forecast'] = history.iloc[-1]`), followed by
the 4 projected hours carrying only predictions. -/
def get_forecast (parse : String → Option ℤ) (sector : Option String)
    (df : List Article) : Option (List (ℤ × Option ℚ × Option ℚ)) :=
  let d := get_data sector df
  if d.isEmpty then none
  else
    let ts := timed_scores parse d
    if ts.isEmpty then none
    else
      let mn := min_hour ts
      let n := n_buckets ts
      let history := history_means ts
      if history.length < 3 then none
      else some (
        ((List.range (n - 1)).map (fun (i : ℕ) =>
            ((mn + (i : ℤ)), some (history.getD i 0), (none : Option ℚ))))
        ++ [((mn + ((n : ℤ) - 1)), some (history.getD (n - 1) 0),
             some (history.getD (n - 1) 0))]
        ++ ((List.range 4).map (fun (j : ℕ) =>
            ((mn + (n : ℤ) + (j : ℤ)), (none : Option ℚ),
             some (predict history j)))))

/-! ## Concrete fixtures used by witnesses and counterexamples -/

/-- A concrete article row. -/
def mk_article (lnk pub : String) (risk : ℤ) (sec : String) : Article :=
  { title := "t", link := lnk, published := pub, source := "s",
    category := "Info", risk_score := risk, sector := sec,
    lat := none, lon := none, is_upcoming := 0 }

/-- A classifier stub returning `Critical Unrest` with confidence 1/2. -/
def clf_crit : String → String × ℚ := fun _ => ("Critical Unrest", 1/2)

/-- A sector rule whose keyword contains an uppercase letter. -/
def cexRules : List (String × List String) := [("INFRASTRUCTURE", ["Riot"])]

/-- An engine with empty configuration and a benign classifier. -/
def trivial_engine : Engine :=
  { sector_rules := [], locations := [],
    classifier := fun _ => ("Positive Growth", 1) }

def entryA : Entry := { title := "Alpha", link := "LA", published := "p" }

def entryB : Entry := { title := "Beta", link := "LB", published := "p" }

def srcA : Source := { name := "A", outcome := .entries [entryA] }

def srcBad : Source := { name := "B", outcome := .err }

def srcC : Source := { name := "C", outcome := .entries [entryB] }

/-- Four articles with risk scores 0, 0, 0, 1, whose mean risk is 1/4. -/
def df4 : List Article :=
  [mk_article "a" "p" 0 "X", mk_article "b" "p" 0 "X",
   mk_article "c" "p" 0 "X", mk_article "d" "p" 1 "X"]

/-- A concrete timestamp parser mapping three `published` strings to the
minutes 0, 60 and 125 (hour buckets 0, 1 and 2). -/
def parse3 : String → Option ℤ :=
  fun s => if s = "h0" then some 0 else if s = "h1" then some 60
           else if s = "h2" then some 125 else none

/-- Three articles, one per hour bucket, all with risk score 60. -/
def dfc : List Article :=
  [mk_article "a" "h0" 60 "X", mk_article "b" "h1" 60 "X",
   mk_article "c" "h2" 60 "X"]

/-- The chart `get_forecast` produces for `dfc`: three observed hours with a
constant mean of 60, the anchor at the last observed hour, and four projected
hours continuing the flat trend. -/
def chart0 : List (ℤ × Option ℚ × Option ℚ) :=
  [(0, some 60, none), (1, some 60, none), (2, some 60, some 60),
   (3, none, some 60), (4, none, some 60), (5, none, some 60),
   (6, none, some 60)]

/-! ## Helper lemmas -/

theorem linkStored_iff_any (l : String) (db : List Article) :
    linkStored l db ↔ (db.any (fun b => b.link = l)) = true := by
  constructor
  · rintro ⟨b, hb, hbl⟩
    rw [List.any_eq_true]
    exact ⟨b, hb, decide_eq_true hbl⟩
  · intro h
    rw [List.any_eq_true] at h
    obtain ⟨b, hb, hbl⟩ := h
    exact ⟨b, hb, of_decide_eq_true hbl⟩

theorem linkStored_save (l : String) (db : List Article) (a : Article)
    (h : linkStored l db) : linkStored l (save_article db a).2 := by
  unfold save_article
  split
  · exact h
  · obtain ⟨b, hb, hbl⟩ := h
    exact ⟨b, List.mem_append_left _ hb, hbl⟩

theorem linkStored_save_self (db : List Article) (a : Article) :
    linkStored a.link (save_article db a).2 := by
  unfold save_article
  split
  · next h =>
    rw [List.any_eq_true] at h
    obtain ⟨b, hb, hbl⟩ := h
    exact ⟨b, hb, of_decide_eq_true hbl⟩
  · exact ⟨a, List.mem_append_right _ (List.mem_singleton.mpr rfl), rfl⟩

theorem get_location_find (locations : List (String × ℚ × ℚ)) (text : String) :
    get_location locations text =
      (match locations.find? (fun p => occursIn p.1 text) with
       | some p => (some p.2.1, some p.2.2)
       | none => (none, none)) := by
  induction locations with
  | nil => rfl
  | cons p rest ih =>
    obtain ⟨city, coords⟩ := p
    by_cases h : occursIn city text
    · rw [get_location, if_pos h, List.find?_cons_of_pos _ (by simpa using h)]
    · rw [get_location, if_neg h, List.find?_cons_of_neg _ (by simpa using h), ih]

theorem get_location_paired (locations : List (String × ℚ × ℚ)) (text : String) :
    (get_location locations text).1.isSome ↔ (get_location locations text).2.isSome := by
  rw [get_location_find]
  cases locations.find? (fun p => occursIn p.1 text) <;> simp

theorem detect_sector_find (rules : List (String × List String)) (text : String) :
    detect_sector rules text =
      (((rules.find? (fun r => r.2.any (fun w => occursIn w (lowerStr text)))).map
          Prod.fst).getD "GENERAL") := by
  induction rules with
  | nil => rfl
  | cons r rest ih =>
    obtain ⟨sector, keywords⟩ := r
    by_cases h : keywords.any (fun w => occursIn w (lowerStr text))
    · rw [detect_sector, if_pos h, List.find?_cons_of_pos _ (by simpa using h)]
      rfl
    · rw [detect_sector, if_neg h, List.find?_cons_of_neg _ (by simpa using h), ih]

theorem pyInt_eq_floor (q : ℚ) (h : 0 ≤ q) : pyInt q = ⌊q⌋ := if_pos h

theorem floor_le_of_le_cast (q : ℚ) (z : ℤ) (h : q ≤ (z : ℚ)) : ⌊q⌋ ≤ z := by
  have h' := Int.floor_mono h
  rwa [Int.floor_intCast] at h'

theorem analyze_risk_band_cases (clf : String → String × ℚ) (text : String)
    (h0 : 0 ≤ (clf text).2) (h1 : (clf text).2 ≤ 1) :
    ((analyze_risk clf text).1 = "Critical" ∧
      80 ≤ (analyze_risk clf text).2 ∧ (analyze_risk clf text).2 ≤ 100) ∨
    ((analyze_risk clf text).1 = "Warning" ∧
      50 ≤ (analyze_risk clf text).2 ∧ (analyze_risk clf text).2 ≤ 79) ∨
    ((analyze_risk clf text).1 = "Opportunity" ∧ (analyze_risk clf text).2 = 0) ∨
    ((analyze_risk clf text).1 = "Info" ∧ (analyze_risk clf text).2 = 10) := by
  simp only [analyze_risk]
  split
  · left
    rw [pyInt_eq_floor _ (by linarith)]
    refine ⟨rfl, Int.le_floor.mpr (by push_cast; linarith), floor_le_of_le_cast _ 100 (by push_cast; linarith)⟩
  · split
    · right; left
      rw [pyInt_eq_floor _ (by linarith)]
      refine ⟨rfl, Int.le_floor.mpr (by push_cast; linarith), floor_le_of_le_cast _ 79 (by push_cast; linarith)⟩
    · split
      · right; right; left; exact ⟨rfl, rfl⟩
      · right; right; right; exact ⟨rfl, rfl⟩

theorem listMean_nonneg (l : List ℚ) (h : ∀ x ∈ l, 0 ≤ x) : 0 ≤ listMean l :=
  div_nonneg (List.sum_nonneg h) (Nat.cast_nonneg _)

theorem listMean_le_hundred (l : List ℚ) (hne : l ≠ []) (h : ∀ x ∈ l, x ≤ 100) :
    listMean l ≤ 100 := by
  have hlen : 0 < (l.length : ℚ) := by
    exact_mod_cast List.length_pos.mpr hne
  rw [listMean, div_le_iff hlen]
  have hs := List.sum_le_card_nsmul l 100 h
  rwa [nsmul_eq_mul, mul_comm] at hs

theorem pyInt_hundred_sub (q : ℚ) (h0 : 0 ≤ q) (h1 : q ≤ 100) :
    pyInt (100 - q) = 100 - ⌈q⌉ := by
  rw [pyInt_eq_floor _ (by linarith),
      show (100 : ℚ) - q = -q + ((100 : ℤ) : ℚ) by push_cast; ring,
      Int.floor_add_int, Int.floor_neg]
  ring

theorem process_article_link (eng : Engine) (nm : String) (e : Entry) :
    (process_article eng nm e).link = e.link := rfl

theorem process_feed_err (eng : Engine) (db : List Article) (src : Source)
    (h : src.outcome = FeedOutcome.err) : process_feed eng db src = db := by
  unfold process_feed
  rw [h]

theorem process_feed_entries (eng : Engine) (db : List Article) (src : Source)
    (es : List Entry) (h : src.outcome = FeedOutcome.entries es) :
    process_feed eng db src =
      if es.isEmpty then db else (es.take 5).foldl (save_step eng src.name) db := by
  unfold process_feed
  rw [h]

theorem linkStored_foldl (eng : Engine) (nm : String) (es : List Entry)
    (db : List Article) (l : String) (h : linkStored l db) :
    linkStored l (es.foldl (save_step eng nm) db) := by
  induction es generalizing db with
  | nil => exact h
  | cons e rest ih => exact ih _ (linkStored_save _ _ _ h)

theorem linkStored_foldl_mem (eng : Engine) (nm : String) (es : List Entry)
    (db : List Article) (e : Entry) (he : e ∈ es) :
    linkStored e.link (es.foldl (save_step eng nm) db) := by
  induction es generalizing db with
  | nil => cases he
  | cons f rest ih =>
    rcases List.mem_cons.mp he with rfl | hmem
    · rw [List.foldl_cons]
      apply linkStored_foldl
      have hs := linkStored_save_self db (process_article eng nm e)
      rwa [process_article_link] at hs
    · rw [List.foldl_cons]
      exact ih _ hmem

theorem linkStored_process_feed (eng : Engine) (db : List Article) (src : Source)
    (l : String) (h : linkStored l db) : linkStored l (process_feed eng db src) := by
  rcases hout : src.outcome with _ | es
  · rwa [process_feed_err eng db src hout]
  · rw [process_feed_entries eng db src es hout]
    split
    · exact h
    · exact linkStored_foldl _ _ _ _ _ h

theorem linkStored_run_cycle (eng : Engine) (sources : List Source)
    (db : List Article) (l : String) (h : linkStored l db) :
    linkStored l (run_cycle eng sources db) := by
  induction sources generalizing db with
  | nil => exact h
  | cons s rest ih => exact ih _ (linkStored_process_feed _ _ _ _ h)

theorem foldl_min_le (l : List (ℤ × ℚ)) (m : ℤ) :
    l.foldl (fun m q => min m q.1) m ≤ m := by
  induction l generalizing m with
  | nil => exact le_refl m
  | cons p rest ih => exact le_trans (ih _) (min_le_left _ _)

theorem le_foldl_max (l : List (ℤ × ℚ)) (m : ℤ) :
    m ≤ l.foldl (fun m q => max m q.1) m := by
  induction l generalizing m with
  | nil => exact le_refl m
  | cons p rest ih => exact le_trans (le_max_left _ _) (ih _)

theorem min_hour_le_max_hour (ts : List (ℤ × ℚ)) (h : ts ≠ []) :
    min_hour ts ≤ max_hour ts := by
  cases ts with
  | nil => exact absurd rfl h
  | cons p rest => exact le_trans (foldl_min_le rest p.1) (le_foldl_max rest p.1)

theorem history_means_length (ts : List (ℤ × ℚ)) :
    (history_means ts).length = n_buckets ts := by
  simp [history_means]

theorem n_buckets_cast (ts : List (ℤ × ℚ)) (h : ts ≠ []) :
    ((n_buckets ts : ℤ)) = max_hour ts - min_hour ts + 1 := by
  rw [n_buckets, Int.toNat_of_nonneg]
  have := min_hour_le_max_hour ts h
  omega

theorem getLast?_eq_getD (l : List ℚ) (h : l ≠ []) :
    l.getLast? = some (l.getD (l.length - 1) 0) := by
  have hlen : 0 < l.length := List.length_pos.mpr h
  rw [List.getLast?_eq_getElem?, List.getD_eq_getElem?_getD,
      List.getElem?_eq_getElem (by omega)]
  rfl

theorem getTextAux_clean (l : List Char) (h : '<' ∉ l) : getTextAux false l = l := by
  induction l with
  | nil => rfl
  | cons c rest ih =>
    simp only [List.mem_cons, not_or] at h
    rw [getTextAux, if_neg (fun hc => h.1 hc.symm), ih h.2]

theorem squeeze_cons_head (d : Char) (rest : List Char) (hd : d.isWhitespace = false) :
    ∃ t, squeeze (d :: rest) = d :: t := by
  cases rest with
  | nil =>
    refine ⟨[], ?_⟩
    simp [squeeze, hd]
  | cons e r =>
    refine ⟨squeeze (e :: r), ?_⟩
    rw [squeeze]
    simp [hd]

theorem squeeze_invariant (l : List Char) :
    (∀ c ∈ squeeze l, c = ' ' ∨ (c ∈ l ∧ c.isWhitespace = false)) ∧
    List.Chain' (fun c d => ¬(c.isWhitespace = true ∧ d.isWhitespace = true)) (squeeze l) := by
  induction l using squeeze.induct with
  | case1 => simp [squeeze]
  | case2 c =>
    refine ⟨?_, by simp [squeeze]⟩
    intro x hx
    rw [squeeze, List.mem_singleton] at hx
    subst hx
    by_cases hc : c.isWhitespace
    · left
      rw [if_pos hc]
    · right
      rw [if_neg hc]
      exact ⟨List.mem_singleton.mpr rfl, Bool.not_eq_true _ ▸ eq_false_of_ne_true hc⟩
  | case3 c d rest h ih =>
    rw [squeeze, if_pos h]
    refine ⟨fun x hx => ?_, ih.2⟩
    rcases ih.1 x hx with h' | ⟨hm, hw⟩
    · left; exact h'
    · right; exact ⟨List.mem_cons_of_mem c hm, hw⟩
  | case4 c d rest h ih =>
    rw [squeeze, if_neg h]
    constructor
    · intro x hx
      rcases List.mem_cons.mp hx with rfl | hx'
      · by_cases hc : c.isWhitespace
        · left
          rw [if_pos hc]
        · right
          rw [if_neg hc]
          exact ⟨List.mem_cons_self c _, eq_false_of_ne_true hc⟩
      · rcases ih.1 x hx' with h' | ⟨hm, hw⟩
        · left; exact h'
        · right; exact ⟨List.mem_cons_of_mem c hm, hw⟩
    · rw [List.chain'_cons']
      refine ⟨?_, ih.2⟩
      intro b hb
      by_cases hc : c.isWhitespace
      · have hd : d.isWhitespace = false := by
          by_cases hdw : d.isWhitespace
          · exact absurd (by rw [hc, hdw]; rfl : (c.isWhitespace && d.isWhitespace) = true) h
          · exact eq_false_of_ne_true hdw
        obtain ⟨t, ht⟩ := squeeze_cons_head d rest hd
        rw [ht] at hb
        simp only [List.head?_cons, Option.mem_def, Option.some.injEq] at hb
        subst hb
        rintro ⟨_, hwb⟩
        rw [hwb] at hd
        cases hd
      · rintro ⟨h1', _⟩
        rw [if_neg hc] at h1'
        exact hc h1'

theorem squeeze_fixed (l : List Char) :
    (∀ c ∈ l, c.isWhitespace = true → c = ' ') →
    List.Chain' (fun c d => ¬(c.isWhitespace = true ∧ d.isWhitespace = true)) l →
    squeeze l = l := by
  induction l using squeeze.induct with
  | case1 => intro _ _; rfl
  | case2 c =>
    intro hsp _
    rw [squeeze]
    by_cases hc : c.isWhitespace
    · rw [if_pos hc, (hsp c (List.mem_singleton.mpr rfl) hc)]
    · rw [if_neg hc]
  | case3 c d rest h ih =>
    intro _ hch
    exfalso
    have h' : c.isWhitespace = true ∧ d.isWhitespace = true := by simpa using h
    exact (List.chain'_cons.mp hch).1 h'
  | case4 c d rest h ih =>
    intro hsp hch
    rw [squeeze, if_neg h]
    have h1 : (if c.isWhitespace then ' ' else c) = c := by
      by_cases hc : c.isWhitespace
      · rw [if_pos hc, (hsp c (List.mem_cons_self _ _) hc)]
      · rw [if_neg hc]
    rw [h1, ih (fun x hx hw => hsp x (List.mem_cons_of_mem c hx) hw)
          (List.chain'_cons.mp hch).2]

theorem dropWhile_head_not (p : Char → Bool) (l : List Char) :
    ∀ c, (l.dropWhile p).head? = some c → p c = false := by
  induction l with
  | nil => intro c hc; cases hc
  | cons a rest ih =>
    intro c hc
    rw [List.dropWhile_cons] at hc
    by_cases ha : p a
    · rw [if_pos ha] at hc
      exact ih c hc
    · rw [if_neg ha] at hc
      rw [List.head?_cons, Option.some.injEq] at hc
      subst hc
      exact eq_false_of_ne_true ha

theorem dropWhile_eq_self_of_head (p : Char → Bool) (l : List Char)
    (h : ∀ c, l.head? = some c → p c = false) : l.dropWhile p = l := by
  cases l with
  | nil => rfl
  | cons a rest =>
    rw [List.dropWhile_cons, if_neg (by rw [h a rfl]; exact Bool.false_ne_true)]

theorem dropWhile_getLast? (p : Char → Bool) (l : List Char) :
    l.dropWhile p = [] ∨ (l.dropWhile p).getLast? = l.getLast? := by
  induction l with
  | nil => left; rfl
  | cons a rest ih =>
    rw [List.dropWhile_cons]
    by_cases ha : p a
    · rw [if_pos ha]
      by_cases hr : rest.dropWhile p = []
      · left; exact hr
      · right
        rcases ih with h | h
        · exact absurd h hr
        · rw [h]
          cases rest with
          | nil => cases hr rfl
          | cons b r => rw [List.getLast?_cons_cons]
    · rw [if_neg ha]
      right
      rfl

theorem pyStrip_mem (l : List Char) (c : Char) (h : c ∈ pyStrip l) : c ∈ l := by
  rw [pyStrip, List.mem_reverse] at h
  have h1 := (List.dropWhile_suffix Char.isWhitespace).sublist.mem h
  rw [List.mem_reverse] at h1
  exact (List.dropWhile_suffix Char.isWhitespace).sublist.mem h1

theorem pyStrip_head (l : List Char) :
    ∀ c, (pyStrip l).head? = some c → c.isWhitespace = false := by
  intro c hc
  rw [pyStrip, List.head?_reverse] at hc
  rcases dropWhile_getLast? Char.isWhitespace (l.dropWhile Char.isWhitespace).reverse with h | h
  · rw [h] at hc
    cases hc
  · rw [h, List.getLast?_reverse] at hc
    exact dropWhile_head_not Char.isWhitespace l c hc

theorem pyStrip_getLast (l : List Char) :
    ∀ c, (pyStrip l).getLast? = some c → c.isWhitespace = false := by
  intro c hc
  rw [pyStrip, List.getLast?_reverse] at hc
  exact dropWhile_head_not Char.isWhitespace _ c hc

theorem pyStrip_fixed (l : List Char)
    (hh : ∀ c, l.head? = some c → c.isWhitespace = false)
    (hl : ∀ c, l.getLast? = some c → c.isWhitespace = false) :
    pyStrip l = l := by
  rw [pyStrip, dropWhile_eq_self_of_head _ _ hh,
      dropWhile_eq_self_of_head _ _ (fun c hc => hl c (by rwa [List.head?_reverse] at hc)),
      List.reverse_reverse]

theorem chain_ws_reverse (l : List Char)
    (h : List.Chain' (fun c d => ¬(c.isWhitespace = true ∧ d.isWhitespace = true)) l) :
    List.Chain' (fun c d => ¬(c.isWhitespace = true ∧ d.isWhitespace = true)) l.reverse := by
  rw [List.chain'_reverse]
  exact h.imp (fun a b hab => fun hx => hab ⟨hx.2, hx.1⟩)

theorem pyStrip_chain (l : List Char)
    (h : List.Chain' (fun c d => ¬(c.isWhitespace = true ∧ d.isWhitespace = true)) l) :
    List.Chain' (fun c d => ¬(c.isWhitespace = true ∧ d.isWhitespace = true)) (pyStrip l) := by
  rw [pyStrip]
  exact chain_ws_reverse _
    ((chain_ws_reverse _ (h.suffix (List.dropWhile_suffix _))).suffix
      (List.dropWhile_suffix _))

/-! ## Claim theorems -/

/-- Claim C10: for empty or missing raw input (`None` or `""`), `preprocess`
returns the empty string rather than raising — the normalization entry point
is total over missing text. -/
theorem preprocess_total_on_missing :
    preprocess_opt none = "" ∧ preprocess_opt (some "") = "" :=
  ⟨rfl, rfl⟩

/-- Claim C2: inserting an article whose `link` is already stored is a no-op
returning `false`; inserting a fresh `link` appends exactly one row and
returns `true`; consequently distinctness of stored links is preserved, so no
two stored rows ever share a link. -/
theorem save_article_dedup (db : List Article) (a : Article) :
    (linkStored a.link db → save_article db a = (false, db)) ∧
    (¬ linkStored a.link db →
      save_article db a = (true, db ++ [a]) ∧
      (save_article db a).2.length = db.length + 1) ∧
    ((db.map Article.link).Nodup → ((save_article db a).2.map Article.link).Nodup) := by
  refine ⟨fun h => ?_, fun h => ?_, fun h => ?_⟩
  · rw [save_article, if_pos ((linkStored_iff_any _ _).mp h)]
  · have ha : (db.any (fun b => b.link = a.link)) ≠ true :=
      fun hc => h ((linkStored_iff_any _ _).mpr hc)
    rw [save_article, if_neg ha]
    exact ⟨rfl, by simp⟩
  · by_cases hl : linkStored a.link db
    · rw [save_article, if_pos ((linkStored_iff_any _ _).mp hl)]
      exact h
    · have ha : (db.any (fun b => b.link = a.link)) ≠ true :=
        fun hc => hl ((linkStored_iff_any _ _).mpr hc)
      rw [save_article, if_neg ha]
      simp only [List.map_append, List.map_cons, List.map_nil]
      rw [List.nodup_append]
      refine ⟨h, List.nodup_singleton _, ?_⟩
      intro x hx hx'
      rw [List.mem_singleton] at hx'
      subst hx'
      obtain ⟨b, hb, hbl⟩ := List.mem_map.mp hx
      exact hl ⟨b, hb, hbl⟩

/-- Witness for C2 at a concrete store: a duplicate link is a no-op returning
`false`, and a fresh link appends one row returning `true`. -/
theorem save_article_dedup_witness :
    save_article [mk_article "L" "p" 10 "X"] (mk_article "L" "p" 20 "X") =
      (false, [mk_article "L" "p" 10 "X"]) ∧
    save_article [mk_article "L" "p" 10 "X"] (mk_article "M" "p" 20 "X") =
      (true, [mk_article "L" "p" 10 "X", mk_article "M" "p" 20 "X"]) :=
  ⟨(save_article_dedup [mk_article "L" "p" 10 "X"] (mk_article "L" "p" 20 "X")).1
      ⟨mk_article "L" "p" 10 "X", by decide, by decide⟩,
   ((save_article_dedup [mk_article "L" "p" 10 "X"] (mk_article "M" "p" 20 "X")).2.1
      (fun h => by
        obtain ⟨b, hb, hbl⟩ := h
        rw [List.mem_singleton] at hb
        subst hb
        exact absurd hbl (by decide))).1⟩

/-- Claim C9: `get_location` returns the coordinates of the first gazetteer
name occurring as a substring of the text and `(none, none)` when no name
matches; `lat` and `lon` are always both present or both absent, and the
paired-nullity invariant holds for every article the pipeline assembles. -/
theorem get_location_contract (locations : List (String × ℚ × ℚ)) (text : String) :
    (get_location locations text =
      (match locations.find? (fun p => occursIn p.1 text) with
       | some p => (some p.2.1, some p.2.2)
       | none => (none, none))) ∧
    ((get_location locations text).1.isSome ↔ (get_location locations text).2.isSome) ∧
    (∀ (eng : Engine) (name : String) (e : Entry),
      (process_article eng name e).lat.isSome ↔ (process_article eng name e).lon.isSome) :=
  ⟨get_location_find locations text, get_location_paired locations text,
   fun eng name e => get_location_paired eng.locations (preprocess e.title)⟩

/-- Counterexample to C4 as stated: with the configured rule
`INFRASTRUCTURE ↦ ["Riot"]` and the text `"Riot"`, the keyword *does* occur
as a case-insensitive substring of the text, so the claim demands
`INFRASTRUCTURE` (as the spec-worded `detect_sector_ci` returns), but the
source compares the keyword verbatim against the lowercased text and returns
`GENERAL`. -/
theorem detect_sector_case_cex :
    detect_sector cexRules "Riot" = "GENERAL" ∧
    detect_sector_ci cexRules "Riot" = "INFRASTRUCTURE" ∧
    ("GENERAL" : String) ≠ "INFRASTRUCTURE" := by
  refine ⟨?_, ?_, by decide⟩ <;> decide

/-- Claim C4 (amended): `detect_sector` scans the configured rules in their
declared order and returns the sector of the first rule one of whose keywords
occurs verbatim as a substring of the *lowercased* text (so matching is
case-insensitive in the text but keywords containing uppercase never match);
it returns `"GENERAL"` when no rule matches.  For fixed rules and text the
result is the deterministic first match, here characterized by `List.find?`. -/
theorem detect_sector_first_match (rules : List (String × List String)) (text : String) :
    detect_sector rules text =
      (((rules.find? (fun r => r.2.any (fun w => occursIn w (lowerStr text)))).map
          Prod.fst).getD "GENERAL") :=
  detect_sector_find rules text

/-- Counterexample to C7 as stated: a storage error during insert is *not*
surfaced as a distinguishable `StorageError` — `save_article` catches the
exception and returns `false`, exactly the value a successful
duplicate-ignoring insert returns, so the two outcomes are indistinguishable
to the caller. -/
theorem storage_error_not_surfaced :
    (save_article_exc true [] (mk_article "L" "p" 10 "X")).1 = false ∧
    (save_article_exc false [mk_article "L" "p" 10 "X"] (mk_article "L" "p" 20 "X")).1 = false ∧
    (save_article_exc true [] (mk_article "L" "p" 10 "X")).1 =
      (save_article_exc false [mk_article "L" "p" 10 "X"] (mk_article "L" "p" 20 "X")).1 := by
  refine ⟨by decide, by decide, by decide⟩

/-- Claim C7 (amended): a storage error during insert is caught inside
`save_article`, which returns `false` and leaves the store unchanged — the
item is skipped for the cycle and the ingestion loop never crashes — but the
result is the very pair a duplicate-ignoring insert produces, so the error is
not distinguishable from a duplicate by the caller. -/
theorem storage_error_skipped (db : List Article) (a : Article)
    (hdup : linkStored a.link db) :
    save_article_exc true db a = (false, db) ∧
    save_article_exc false db a = save_article_exc true db a := by
  constructor
  · rfl
  · show save_article db a = (false, db)
    rw [save_article, if_pos ((linkStored_iff_any _ _).mp hdup)]

/-- Witness for C7 at a concrete store holding link `"L"`: the erroring
insert and the duplicate insert both yield `(false, store)`. -/
theorem storage_error_skipped_witness :
    save_article_exc true [mk_article "L" "p" 10 "X"] (mk_article "L" "p" 20 "X") =
      (false, [mk_article "L" "p" 10 "X"]) ∧
    save_article_exc false [mk_article "L" "p" 10 "X"] (mk_article "L" "p" 20 "X") =
      save_article_exc true [mk_article "L" "p" 10 "X"] (mk_article "L" "p" 20 "X") :=
  storage_error_skipped [mk_article "L" "p" 10 "X"] (mk_article "L" "p" 20 "X")
    ⟨mk_article "L" "p" 10 "X", by decide, by decide⟩

/-- Claim C1: for every text and classifier result with top label `L` and
confidence `c ∈ [0,1]`, `analyze_risk` returns: `Critical` with
`⌊80 + 20c⌋ ∈ [80,100]` for the three critical labels; `Warning` with
`⌊50 + 29c⌋ ∈ [50,79]` for the two warning labels; `Opportunity` with score 0
for `Positive Growth`; otherwise `Info` with score 10.  The bands never
overlap across categories: two results with different categories always have
different scores. -/
theorem analyze_risk_bands (clf clf' : String → String × ℚ) (text text' : String)
    (h0 : 0 ≤ (clf text).2) (h1 : (clf text).2 ≤ 1)
    (h0' : 0 ≤ (clf' text').2) (h1' : (clf' text').2 ≤ 1) :
    ((clf text).1 ∈ (["Critical Unrest", "Natural Disaster", "Supply Chain Disruption"] : List String) →
        analyze_risk clf text = ("Critical", ⌊80 + (clf text).2 * 20⌋) ∧
        80 ≤ ⌊80 + (clf text).2 * 20⌋ ∧ ⌊80 + (clf text).2 * 20⌋ ≤ 100) ∧
    ((clf text).1 ∈ (["Economic Crisis", "Political Instability"] : List String) →
        analyze_risk clf text = ("Warning", ⌊50 + (clf text).2 * 29⌋) ∧
        50 ≤ ⌊50 + (clf text).2 * 29⌋ ∧ ⌊50 + (clf text).2 * 29⌋ ≤ 79) ∧
    ((clf text).1 = "Positive Growth" → analyze_risk clf text = ("Opportunity", 0)) ∧
    ((clf text).1 ∉ (["Critical Unrest", "Natural Disaster", "Supply Chain Disruption"] : List String) →
     (clf text).1 ∉ (["Economic Crisis", "Political Instability"] : List String) →
     (clf text).1 ≠ "Positive Growth" →
        analyze_risk clf text = ("Info", 10)) ∧
    ((analyze_risk clf text).1 ≠ (analyze_risk clf' text').1 →
      (analyze_risk clf text).2 ≠ (analyze_risk clf' text').2) := by
  refine ⟨fun hm => ?_, fun hm => ?_, fun hm => ?_, fun hm1 hm2 hm3 => ?_, fun hne => ?_⟩
  · constructor
    · simp only [analyze_risk]
      rw [if_pos hm, pyInt_eq_floor _ (by linarith)]
    · exact ⟨Int.le_floor.mpr (by push_cast; linarith),
        floor_le_of_le_cast _ 100 (by push_cast; linarith)⟩
  · constructor
    · have hnc : (clf text).1 ∉
          (["Critical Unrest", "Natural Disaster", "Supply Chain Disruption"] : List String) := by
        simp only [List.mem_cons, List.mem_singleton, List.not_mem_nil, or_false] at hm ⊢
        rcases hm with h | h <;> rw [h] <;> decide
      simp only [analyze_risk]
      rw [if_neg hnc, if_pos hm, pyInt_eq_floor _ (by linarith)]
    · exact ⟨Int.le_floor.mpr (by push_cast; linarith),
        floor_le_of_le_cast _ 79 (by push_cast; linarith)⟩
  · have hnc : (clf text).1 ∉
        (["Critical Unrest", "Natural Disaster", "Supply Chain Disruption"] : List String) := by
      rw [hm]; decide
    have hnw : (clf text).1 ∉ (["Economic Crisis", "Political Instability"] : List String) := by
      rw [hm]; decide
    simp only [analyze_risk]
    rw [if_neg hnc, if_neg hnw, if_pos hm]
  · simp only [analyze_risk]
    rw [if_neg hm1, if_neg hm2, if_neg hm3]
  · rcases analyze_risk_band_cases clf text h0 h1 with ⟨e1, b1⟩ | ⟨e1, b1⟩ | ⟨e1, b1⟩ | ⟨e1, b1⟩ <;>
      rcases analyze_risk_band_cases clf' text' h0' h1' with ⟨e2, b2⟩ | ⟨e2, b2⟩ | ⟨e2, b2⟩ | ⟨e2, b2⟩ <;>
      first
        | exact absurd (e1.trans e2.symm) hne
        | omega

/-- Witness for C1: the stub classifier reporting `Critical Unrest` with
confidence 1/2 yields category `Critical` and score `⌊80 + 10⌋ = 90`. -/
theorem analyze_risk_bands_witness :
    (0 : ℚ) ≤ (clf_crit "protest").2 ∧
    analyze_risk clf_crit "protest" = ("Critical", 90) := by
  have h := (analyze_risk_bands clf_crit clf_crit "protest" "protest"
      (by norm_num [clf_crit]) (by norm_num [clf_crit])
      (by norm_num [clf_crit]) (by norm_num [clf_crit])).1 (by decide)
  refine ⟨by norm_num [clf_crit], ?_⟩
  rw [h.1, show ((80 : ℚ) + (clf_crit "protest").2 * 20) = ((90 : ℤ) : ℚ) by
        norm_num [clf_crit],
      Int.floor_intCast]

/-- Counterexample to C3 as stated: an empty filtered window yields
stability 0, not 100; and for four articles with risk scores 0, 0, 0, 1 the
mean is 1/4, the source computes `int(100 - 1/4) = 99`, while
`100 - round(1/4) = 100`. -/
theorem national_indicators_cex :
    (get_national_indicators (fun _ => none) 0 none []).1 = 0 ∧ (0 : ℤ) ≠ 100 ∧
    listMean ((df4.take 50).map (fun a => (a.risk_score : ℚ))) = 1/4 ∧
    (get_national_indicators (fun _ => none) 0 none df4).1 = 99 ∧
    (99 : ℤ) ≠ 100 - round ((1 : ℚ)/4) := by
  have hmean : listMean ((df4.take 50).map (fun a => (a.risk_score : ℚ))) = 1/4 := by
    show listMean [((0 : ℤ) : ℚ), ((0 : ℤ) : ℚ), ((0 : ℤ) : ℚ), ((1 : ℤ) : ℚ)] = 1/4
    rw [listMean]
    norm_num
  refine ⟨rfl, by decide, hmean, ?_, ?_⟩
  · show (pyInt (100 - listMean ((df4.take 50).map (fun a => (a.risk_score : ℚ))))) = 99
    rw [hmean, pyInt_eq_floor _ (by norm_num), Int.floor_eq_iff]
    constructor <;> norm_num
  · rw [show round ((1 : ℚ)/4) = 0 by
      rw [round_eq, Int.floor_eq_iff] <;> norm_num]
    decide

/-- Claim C3 (amended): `get_national_indicators` returns `(0, 0, 0)` on an
empty filtered window (not stability 100); on a nonempty window with risk
scores in `[0, 100]` it returns stability
`int(100 - mean) = 100 - ⌈mean⌉` of the 50 most recent matching articles —
truncation of `100 - mean`, not `100 - round(mean)` — and
`critical_count` = the number of matching articles with `risk_score > 80`. -/
theorem national_indicators_amended (parse : String → Option ℤ) (now : ℤ)
    (sector : Option String) (df : List Article) :
    (get_data sector df = [] → get_national_indicators parse now sector df = (0, 0, 0)) ∧
    (get_data sector df ≠ [] →
      (∀ a ∈ get_data sector df, 0 ≤ a.risk_score ∧ a.risk_score ≤ 100) →
      (get_national_indicators parse now sector df).1 =
        100 - ⌈listMean (((get_data sector df).take 50).map (fun a => (a.risk_score : ℚ)))⌉ ∧
      (get_national_indicators parse now sector df).2.1 =
        ((get_data sector df).filter (fun a => 80 < a.risk_score)).length) := by
  constructor
  · intro h
    simp only [get_national_indicators, h]
    rfl
  · intro hne hb
    have hempty : ¬ ((get_data sector df).isEmpty = true) := by
      rw [List.isEmpty_iff]
      exact hne
    have h0 : ∀ x ∈ ((get_data sector df).take 50).map (fun a => (a.risk_score : ℚ)),
        0 ≤ x := by
      intro x hx
      obtain ⟨a, ha, rfl⟩ := List.mem_map.mp hx
      exact_mod_cast (hb a (List.mem_of_mem_take ha)).1
    have h100 : ∀ x ∈ ((get_data sector df).take 50).map (fun a => (a.risk_score : ℚ)),
        x ≤ 100 := by
      intro x hx
      obtain ⟨a, ha, rfl⟩ := List.mem_map.mp hx
      exact_mod_cast (hb a (List.mem_of_mem_take ha)).2
    have hne' : ((get_data sector df).take 50).map (fun a => (a.risk_score : ℚ)) ≠ [] := by
      intro hc
      have hlen := congrArg List.length hc
      rw [List.length_map, List.length_take] at hlen
      simp only [List.length_nil] at hlen
      have hz : (get_data sector df).length = 0 := by omega
      exact hne (List.length_eq_zero.mp hz)
    simp only [get_national_indicators]
    rw [if_neg hempty]
    exact ⟨pyInt_hundred_sub _ (listMean_nonneg _ h0) (listMean_le_hundred _ hne' h100), rfl⟩

/-- Witness for C3's amended statement at the concrete four-article frame. -/
theorem national_indicators_amended_witness :
    (get_national_indicators (fun _ => none) 0 none df4).1 =
      100 - ⌈listMean ((df4.take 50).map (fun a => (a.risk_score : ℚ)))⌉ ∧
    (get_national_indicators (fun _ => none) 0 none df4).2.1 =
      (df4.filter (fun a => 80 < a.risk_score)).length :=
  (national_indicators_amended (fun _ => none) 0 none df4).2 (by decide) (by decide)

/-- Claim C6: if one source's processing raises (any exception — network,
malformed feed, classification), the exception is caught and the cycle is
exactly the cycle over the remaining sources, processed in list order; every
article (first five entries) of every non-failing source is still persisted
in the cycle's final store. -/
theorem per_source_isolation (eng : Engine) (s1 s2 : List Source) (bad : Source)
    (db : List Article) (hbad : bad.outcome = FeedOutcome.err) :
    run_cycle eng (s1 ++ bad :: s2) db = run_cycle eng (s1 ++ s2) db ∧
    (∀ src ∈ s1 ++ s2, ∀ es, src.outcome = FeedOutcome.entries es →
      ∀ e ∈ es.take 5, linkStored e.link (run_cycle eng (s1 ++ bad :: s2) db)) := by
  have heq : run_cycle eng (s1 ++ bad :: s2) db = run_cycle eng (s1 ++ s2) db := by
    unfold run_cycle
    rw [List.foldl_append, List.foldl_append, List.foldl_cons,
        process_feed_err eng _ bad hbad]
  refine ⟨heq, ?_⟩
  intro src hsrc es hes e he
  rw [heq]
  obtain ⟨u, v, huv⟩ := List.append_of_mem hsrc
  rw [huv]
  unfold run_cycle
  rw [List.foldl_append, List.foldl_cons]
  apply linkStored_run_cycle
  rw [process_feed_entries eng _ src es hes,
      if_neg (fun hc =>
        List.ne_nil_of_mem (List.mem_of_mem_take he) (List.isEmpty_iff.mp hc))]
  exact linkStored_foldl_mem eng src.name _ _ e he

/-- Witness for C6: three concrete sources with the middle one failing — the
cycle equals the cycle over the two good sources, and the third source's
article is persisted. -/
theorem per_source_isolation_witness :
    run_cycle trivial_engine [srcA, srcBad, srcC] [] =
      run_cycle trivial_engine [srcA, srcC] [] ∧
    linkStored entryB.link (run_cycle trivial_engine [srcA, srcBad, srcC] []) :=
  ⟨(per_source_isolation trivial_engine [srcA] [srcC] srcBad [] rfl).1,
   (per_source_isolation trivial_engine [srcA] [srcC] srcBad [] rfl).2 srcC
     (by decide) [entryB] rfl entryB (by decide)⟩

/-- Claim C5: `get_forecast` returns `none` whenever the matching articles
have no parseable timestamp at all, and whenever they yield fewer than 3
hourly mean buckets; when it returns a series, the projected channel consists
of an anchor at the last observed hour whose value is the last observed
hourly mean, followed by exactly 4 additional hourly points, all strictly
after the last observed hour and carrying no observed value. -/
theorem forecast_contract (parse : String → Option ℤ) (sector : Option String)
    (df : List Article) :
    (timed_scores parse (get_data sector df) = [] →
      get_forecast parse sector df = none) ∧
    ((history_means (timed_scores parse (get_data sector df))).length < 3 →
      get_forecast parse sector df = none) ∧
    (∀ chart, get_forecast parse sector df = some chart →
      ∃ v rest,
        (history_means (timed_scores parse (get_data sector df))).getLast? = some v ∧
        chart.filter (fun r => r.2.2.isSome) =
          (max_hour (timed_scores parse (get_data sector df)), some v, some v) :: rest ∧
        rest.length = 4 ∧
        (∀ r ∈ rest, r.2.1 = none ∧
          max_hour (timed_scores parse (get_data sector df)) < r.1)) := by
  refine ⟨fun h1 => ?_, fun h2 => ?_, fun chart hc => ?_⟩
  · simp only [get_forecast]
    split_ifs with hd hts hlen
    · rfl
    · rfl
    · rfl
    · exact absurd (List.isEmpty_iff.mpr h1) hts
  · simp only [get_forecast]
    split_ifs with hd hts
    · rfl
    · rfl
    · rfl
  · simp only [get_forecast] at hc
    by_cases hd : (get_data sector df).isEmpty
    · rw [if_pos hd] at hc
      cases hc
    rw [if_neg hd] at hc
    by_cases hts : (timed_scores parse (get_data sector df)).isEmpty
    · rw [if_pos hts] at hc
      cases hc
    rw [if_neg hts] at hc
    by_cases hlen : (history_means (timed_scores parse (get_data sector df))).length < 3
    · rw [if_pos hlen] at hc
      cases hc
    rw [if_neg hlen] at hc
    injection hc with hc
    subst hc
    have htsne : timed_scores parse (get_data sector df) ≠ [] :=
      fun h => hts (List.isEmpty_iff.mpr h)
    have hcast := n_buckets_cast _ htsne
    have hhl := history_means_length (timed_scores parse (get_data sector df))
    have hn3 : 3 ≤ n_buckets (timed_scores parse (get_data sector df)) := by omega
    have hhne : history_means (timed_scores parse (get_data sector df)) ≠ [] := by
      intro h
      rw [h] at hhl
      simp at hhl
      omega
    refine ⟨(history_means (timed_scores parse (get_data sector df))).getD
        (n_buckets (timed_scores parse (get_data sector df)) - 1) 0,
      (List.range 4).map (fun (j : ℕ) =>
        ((min_hour (timed_scores parse (get_data sector df)) +
            (n_buckets (timed_scores parse (get_data sector df)) : ℤ) + (j : ℤ)),
         (none : Option ℚ),
         some (predict (history_means (timed_scores parse (get_data sector df))) j))),
      ?_, ?_, ?_, ?_⟩
    · rw [getLast?_eq_getD _ hhne, hhl]
    · rw [List.filter_append, List.filter_append]
      have hA : ((List.range (n_buckets (timed_scores parse (get_data sector df)) - 1)).map
          (fun (i : ℕ) =>
            ((min_hour (timed_scores parse (get_data sector df)) + (i : ℤ)),
             some ((history_means (timed_scores parse (get_data sector df))).getD i 0),
             (none : Option ℚ)))).filter (fun r => r.2.2.isSome) = [] := by
        rw [List.filter_eq_nil_iff]
        intro r hr
        obtain ⟨i, _, rfl⟩ := List.mem_map.mp hr
        simp
      have hB : ((List.range 4).map (fun (j : ℕ) =>
          ((min_hour (timed_scores parse (get_data sector df)) +
              (n_buckets (timed_scores parse (get_data sector df)) : ℤ) + (j : ℤ)),
           (none : Option ℚ),
           some (predict (history_means (timed_scores parse (get_data sector df))) j)))).filter
            (fun r => r.2.2.isSome) =
          (List.range 4).map (fun (j : ℕ) =>
          ((min_hour (timed_scores parse (get_data sector df)) +
              (n_buckets (timed_scores parse (get_data sector df)) : ℤ) + (j : ℤ)),
           (none : Option ℚ),
           some (predict (history_means (timed_scores parse (get_data sector df))) j))) := by
        rw [List.filter_eq_self]
        intro r hr
        obtain ⟨j, _, rfl⟩ := List.mem_map.mp hr
        simp
      rw [hA, hB]
      simp only [List.nil_append, List.filter_cons]
      rw [if_pos (by simp)]
      simp only [List.filter_nil, List.singleton_append]
      congr 2
      omega
    · simp
    · intro r hr
      obtain ⟨j, _, rfl⟩ := List.mem_map.mp hr
      refine ⟨rfl, ?_⟩
      have hj : (0 : ℤ) ≤ (j : ℤ) := Int.ofNat_nonneg j
      omega

/-- Witness for C5: three articles in hour buckets 0, 1, 2 with constant risk
score 60 produce the chart `chart0` — and the contract's conclusion holds for
it: the forecast channel starts at the last observed hour with the last
observed mean and continues with exactly 4 later projected points. -/
theorem forecast_contract_witness :
    get_forecast parse3 none dfc = some chart0 ∧
    (∃ v rest,
      (history_means (timed_scores parse3 (get_data none dfc))).getLast? = some v ∧
      chart0.filter (fun r => r.2.2.isSome) =
        (max_hour (timed_scores parse3 (get_data none dfc)), some v, some v) :: rest ∧
      rest.length = 4 ∧
      (∀ r ∈ rest, r.2.1 = none ∧
        max_hour (timed_scores parse3 (get_data none dfc)) < r.1)) := by
  have hgd : get_data none dfc = dfc := rfl
  have hts : timed_scores parse3 dfc = [(0, (60 : ℚ)), (1, 60), (2, 60)] := by
    decide
  have hhm : history_means [(0, (60 : ℚ)), (1, 60), (2, 60)] = [60, 60, 60] := by
    have hnb : n_buckets [(0, (60 : ℚ)), (1, 60), (2, 60)] = 3 := by decide
    have hmin : min_hour [(0, (60 : ℚ)), (1, 60), (2, 60)] = 0 := by decide
    simp only [history_means, hnb, hmin]
    rw [show List.range 3 = [0, 1, 2] from rfl]
    simp only [List.map_cons, List.map_nil]
    norm_num [bucket_vals, listMean, List.filter_cons]
  have hfit : lin_fit [(60 : ℚ), 60, 60] = (60, 0) := by
    simp only [lin_fit, List.length_cons, List.length_nil]
    rw [show List.range 3 = [0, 1, 2] from rfl]
    simp only [List.map_cons, List.map_nil, List.zip_cons_cons, List.zip_nil_right,
      List.sum_cons, List.sum_nil]
    norm_num
  have hp : ∀ j : ℕ, predict [(60 : ℚ), 60, 60] j = 60 := by
    intro j
    simp only [predict, hfit]
    norm_num
  have hnb : n_buckets [(0, (60 : ℚ)), (1, 60), (2, 60)] = 3 := by decide
  have hmin : min_hour [(0, (60 : ℚ)), (1, 60), (2, 60)] = 0 := by decide
  have hfc : get_forecast parse3 none dfc = some chart0 := by
    simp only [get_forecast, hgd, hts, hhm, hnb, hmin]
    norm_num
    refine ⟨by decide, ?_⟩
    rw [show List.range (3 - 1) = [0, 1] from rfl,
        show List.range 4 = [0, 1, 2, 3] from rfl]
    simp only [List.map_cons, List.map_nil, hp, chart0]
    decide
  exact ⟨hfc, (forecast_contract parse3 none dfc).2.2 chart0 hfc⟩

/-- Claim C8: normalization is idempotent — for every input string,
including arbitrary HTML-laden input,
`preprocess (preprocess x) = preprocess x`. -/
theorem preprocess_idem (s : String) : preprocess (preprocess s) = preprocess s := by
  by_cases hs : s = ""
  · rw [hs]
    rfl
  · have hy : preprocess s =
        String.mk (pyStrip (squeeze (List.filter allowedChar (get_text s.data)))) := by
      rw [preprocess, if_neg hs]
    set m : List Char := List.filter allowedChar (get_text s.data) with hm
    set l : List Char := pyStrip (squeeze m) with hldef
    rw [hy]
    by_cases hl : String.mk l = ""
    · rw [hl]
      rfl
    · rw [preprocess, if_neg hl]
      show String.mk (pyStrip (squeeze (List.filter allowedChar (get_text l)))) = String.mk l
      have hmemchar : ∀ c ∈ l, c = ' ' ∨ (allowedChar c = true ∧ c.isWhitespace = false) := by
        intro c hc
        rcases (squeeze_invariant m).1 c (pyStrip_mem _ _ hc) with h' | ⟨hmem, hw⟩
        · left; exact h'
        · right; exact ⟨List.of_mem_filter hmem, hw⟩
      have hallowed : ∀ c ∈ l, allowedChar c = true := by
        intro c hc
        rcases hmemchar c hc with rfl | ⟨h', _⟩
        · decide
        · exact h'
      have hnolt : '<' ∉ l := by
        intro hc
        have h' := hallowed _ hc
        exact absurd h' (by decide)
      rw [show get_text l = l from getTextAux_clean l hnolt,
          List.filter_eq_self.mpr hallowed]
      have hsp : ∀ c ∈ l, c.isWhitespace = true → c = ' ' := by
        intro c hc hw
        rcases hmemchar c hc with rfl | ⟨_, hw'⟩
        · rfl
        · rw [hw] at hw'
          cases hw'
      have hch : List.Chain'
          (fun c d => ¬(c.isWhitespace = true ∧ d.isWhitespace = true)) l := by
        rw [hldef]
        exact pyStrip_chain _ (squeeze_invariant m).2
      rw [squeeze_fixed l hsp hch,
          pyStrip_fixed l (by rw [hldef]; exact pyStrip_head (squeeze m))
            (by rw [hldef]; exact pyStrip_getLast (squeeze m))]

end Astra
